import Mathlib

/-!
Shallow embedding of the admission-control subsystem of
jamesmeyerr/credit-card-validator: the per-client token-bucket rate
limiter (`src/internal/middleware/ratelimiter.go`) and the client-key
extraction of the admission middleware
(`src/internal/middleware/logger.go`).

Modelling conventions:
- Go `float64` values (token counts, rates) are modelled as `ℚ`;
  `time.Time` instants and `time.Duration` lengths as `ℚ` seconds.
- The Go map `clients map[string]*bucket` is modelled as a function
  `String → Option Bucket` (pointwise lookup/insert/delete), which is
  the denotation of a map with unique keys.
- `time.Now()` is passed explicitly as a `now : ℚ` argument.
- Functions that can panic in Go return `Option`.
-/

namespace CreditCardValidator

/-- Type `bucket` from ratelimiter.go: one token bucket per client. -/
structure Bucket where
  tokens : ℚ
  lastRefill : ℚ
  deriving DecidableEq, Repr

/-- Type `RateLimiter` from ratelimiter.go. The `cleanup *time.Ticker` field is
part of the background-sweeper machinery and carries no admission state;
it is not represented. -/
structure RateLimiter where
  rate : ℚ
  bucketSize : ℤ
  clients : String → Option Bucket

/-- The repository's own `min` helper for `float64` (ratelimiter.go lines
91-96), named `goMin` here to avoid clashing with `Min.min`. -/
def goMin (a b : ℚ) : ℚ := if a < b then a else b

/-- Constructor `NewRateLimiter(rate, bucketSize, cleanupInterval)`. The only failure
path in the Go constructor is `time.NewTicker`, which panics when the
interval is non-positive; that panic is modelled as `none`. No other
argument is validated. -/
def NewRateLimiter (rate : ℚ) (bucketSize : ℤ) (cleanupInterval : ℚ) :
    Option RateLimiter :=
  if cleanupInterval ≤ 0 then none
  else some { rate := rate, bucketSize := bucketSize, clients := fun _ => none }

/-- Sweep `cleanupStale(maxAge)`: removes every bucket with
`lastRefill.Before(threshold)` where `threshold = now - maxAge`
(ratelimiter.go lines 45-55). -/
def cleanupStale (rl : RateLimiter) (now maxAge : ℚ) : RateLimiter :=
  { rl with
    clients := fun ip =>
      match rl.clients ip with
      | some b => if b.lastRefill < now - maxAge then none else some b
      | none => none }

/-- Operation `Allow(ip)` (ratelimiter.go lines 58-88). Returns the admission
decision together with the successor limiter state. On a miss a bucket
is created with `capacity - 1` tokens; on a hit the bucket is refilled by
`elapsed * rate`, clamped at `bucketSize`, stamped with `now`, and then
one token is consumed iff at least `1.0` is available. -/
def Allow (rl : RateLimiter) (ip : String) (now : ℚ) : Bool × RateLimiter :=
  match rl.clients ip with
  | none =>
      (true, { rl with
        clients := fun k =>
          if k = ip then some ⟨(rl.bucketSize : ℚ) - 1, now⟩ else rl.clients k })
  | some b =>
      let elapsed := now - b.lastRefill
      let refill := elapsed * rl.rate
      let tokens := goMin (rl.bucketSize : ℚ) (b.tokens + refill)
      if 1 ≤ tokens then
        (true, { rl with
          clients := fun k =>
            if k = ip then some ⟨tokens - 1, now⟩ else rl.clients k })
      else
        (false, { rl with
          clients := fun k =>
            if k = ip then some ⟨tokens, now⟩ else rl.clients k })

/-- Iterated `Allow`: `n` successive calls for the same key, all sharing the same
clock reading `now` ("zero elapsed time between them"): the list of
decisions and the final state. -/
def allowRepeat (rl : RateLimiter) (ip : String) (now : ℚ) :
    ℕ → List Bool × RateLimiter
  | 0 => ([], rl)
  | n + 1 =>
      let step := Allow rl ip now
      let rest := allowRepeat step.2 ip now n
      (step.1 :: rest.1, rest.2)

/-- A sequence of `Allow` calls at explicit clock readings. -/
def allowSeq (rl : RateLimiter) : List (String × ℚ) → RateLimiter
  | [] => rl
  | (ip, t) :: rest => allowSeq (Allow rl ip t).2 rest

/-- The clock readings of a call sequence are non-decreasing, starting
from `t0`. -/
def MonotoneCalls : ℚ → List (String × ℚ) → Prop
  | _, [] => True
  | t0, (_, t) :: rest => t0 ≤ t ∧ MonotoneCalls t rest

/-- The clock reading after the last call of a sequence starting at `t0`. -/
def lastTime : ℚ → List (String × ℚ) → ℚ
  | t0, [] => t0
  | _, (_, t) :: rest => lastTime t rest

/-- The bucket-store invariant at clock reading `t`: every live bucket
holds between `0` and `capacity` tokens and was last stamped no later
than `t`. -/
def InvFrom (rl : RateLimiter) (t : ℚ) : Prop :=
  ∀ ip b, rl.clients ip = some b →
    0 ≤ b.tokens ∧ b.tokens ≤ (rl.bucketSize : ℚ) ∧ b.lastRefill ≤ t

/-- The token count the hit branch of `Allow` computes before deciding:
`min(bucketSize, tokens + elapsed*rate)` (ratelimiter.go lines 73-78). -/
def refilledTokens (rl : RateLimiter) (b : Bucket) (now : ℚ) : ℚ :=
  goMin (rl.bucketSize : ℚ) (b.tokens + (now - b.lastRefill) * rl.rate)

/-! ### Client-key extraction (logger.go) -/

/-- The slice of an inbound request the key-extraction code reads: the
two proxy headers (a Go `Header.Get` returns `""` when a header is
absent) and the transport peer address `r.RemoteAddr`. -/
structure Request where
  xForwardedFor : String
  xRealIP : String
  remoteAddr : String
  deriving DecidableEq, Repr

/-- Prefix of `l` strictly before the first occurrence of `c`. -/
def takeUntilChar (c : Char) : List Char → List Char
  | [] => []
  | a :: as => if a = c then [] else a :: takeUntilChar c as

/-- Go's `strings.Split(s, sep)[0]` for a one-character separator — equally,
the `before` component of `strings.Cut(s, sep)`: the part of `s` before
the first `sep`, or all of `s` when `sep` does not occur. -/
def firstSegment (sep : Char) (s : String) : String :=
  String.mk (takeUntilChar sep s.toList)

/-- Go's `r.Header.Get(name)` restricted to the headers `getClientIP` reads. -/
def headerGet (r : Request) (name : String) : String :=
  if name = "X-Forwarded-For" then r.xForwardedFor
  else if name = "X-Real-IP" then r.xRealIP
  else ""

/-- The header loop of `getClientIP`: the first
listed header carrying a non-empty value. -/
def firstNonEmptyHeader (r : Request) : List String → Option String
  | [] => none
  | h :: hs =>
      if headerGet r h ≠ "" then some (headerGet r h)
      else firstNonEmptyHeader r hs

/-- Function `getClientIP` (logger.go lines 155-168): the first comma segment of
the first non-empty header among `X-Forwarded-For`, `X-Real-IP`; when
both are empty, `r.RemoteAddr` cut at its first colon. -/
def getClientIP (r : Request) : String :=
  match firstNonEmptyHeader r ["X-Forwarded-For", "X-Real-IP"] with
  | some ip => firstSegment ',' ip
  | none => firstSegment ':' r.remoteAddr

/-- Surrounding-whitespace trim, used only by `specClientKey` below. -/
def trimEnds (s : String) : String :=
  String.mk
    (((s.toList.dropWhile Char.isWhitespace).reverse.dropWhile
      Char.isWhitespace).reverse)

/-- Everything before the last colon of `s`, `s` itself when it has no
colon: "the transport peer address with any trailing port stripped",
used only by `specClientKey` below. -/
def dropThroughChar (c : Char) : List Char → List Char
  | [] => []
  | a :: as => if a = c then as else dropThroughChar c as

def stripTrailingPort (s : String) : String :=
  if s.toList.contains ':' then
    String.mk (dropThroughChar ':' s.toList.reverse).reverse
  else s

/-- The client-key derivation exactly as claim C7 words it (a second
definition following the spec's words, for comparison with
`getClientIP`): the first comma-separated entry of `X-Forwarded-For`
trimmed of surrounding whitespace; otherwise the `X-Real-IP` value;
otherwise the peer address with any trailing port stripped. -/
def specClientKey (r : Request) : String :=
  if r.xForwardedFor ≠ "" then trimEnds (firstSegment ',' r.xForwardedFor)
  else if r.xRealIP ≠ "" then r.xRealIP
  else stripTrailingPort r.remoteAddr

/-! ### Admission middleware (ratelimiter.go lines 104-127) -/

/-- What the middleware does to one request: any status and body it wrote
itself, the content type it set, and whether the request reached the
downstream handler. `status = none` when the middleware wrote no status
of its own (the admitted path). -/
structure HttpResponse where
  status : Option ℕ
  contentType : Option String
  body : String
  forwarded : Bool
  deriving DecidableEq, Repr

/-- The bytes the denial branch's JSON encoder writes
on denial; `Encode` appends a newline to the encoded object. -/
def rateLimitDenialBody : String :=
  "\x7b\"error\":\"Rate limit exceeded, please try again later\"\x7d\n"

/-- The bytes `http.Error(w, "Unable to determine client IP", 500)`
writes; `http.Error` appends a newline and sets a plain-text content
type. -/
def cannotDetermineBody : String := "Unable to determine client IP\n"

/-- Middleware `RateLimitMiddleware` (ratelimiter.go lines 104-127): extract the
key with `getClientIP`; an empty key is answered with a 500 plain-text
error; a denied key with a 429 JSON error; otherwise the request is
forwarded downstream unchanged. -/
def RateLimitMiddleware (rl : RateLimiter) (r : Request) (now : ℚ) :
    HttpResponse × RateLimiter :=
  let ip := getClientIP r
  if ip = "" then
    ({ status := some 500, contentType := some "text/plain; charset=utf-8",
       body := cannotDetermineBody, forwarded := false }, rl)
  else
    let result := Allow rl ip now
    if result.1 then
      ({ status := none, contentType := none, body := "", forwarded := true },
        result.2)
    else
      ({ status := some 429, contentType := some "application/json",
         body := rateLimitDenialBody, forwarded := false }, result.2)

/-! Basic facts about `Allow` and `goMin`. -/

theorem goMin_le_left (a b : ℚ) : goMin a b ≤ a := by
  unfold goMin; split
  · exact le_refl a
  · exact le_of_not_lt (by assumption)

theorem goMin_eq_right {a b : ℚ} (h : b ≤ a) : goMin a b = b := by
  unfold goMin; split
  · exact absurd (by assumption) (not_lt.mpr h)
  · rfl

theorem Allow_rate (rl : RateLimiter) (ip : String) (now : ℚ) :
    ((Allow rl ip now).2).rate = rl.rate := by
  unfold Allow
  cases rl.clients ip <;> simp
  split <;> rfl

theorem Allow_bucketSize (rl : RateLimiter) (ip : String) (now : ℚ) :
    ((Allow rl ip now).2).bucketSize = rl.bucketSize := by
  unfold Allow
  cases rl.clients ip <;> simp
  split <;> rfl

/-- The miss branch of `Allow`, fully described. -/
theorem Allow_miss (rl : RateLimiter) (ip : String) (now : ℚ)
    (h : rl.clients ip = none) :
    (Allow rl ip now).1 = true ∧
    ((Allow rl ip now).2).clients ip = some ⟨(rl.bucketSize : ℚ) - 1, now⟩ := by
  unfold Allow
  rw [h]
  exact ⟨rfl, by simp⟩

/-- The hit branch of `Allow`, fully described: the decision is
`1 ≤ refilledTokens`, and the stored bucket is the refilled one, minus
one token when admitted, stamped with `now`. -/
theorem Allow_hit (rl : RateLimiter) (ip : String) (now : ℚ) (b : Bucket)
    (h : rl.clients ip = some b) :
    (Allow rl ip now).1 = decide (1 ≤ refilledTokens rl b now) ∧
    ((Allow rl ip now).2).clients ip =
      some ⟨if 1 ≤ refilledTokens rl b now then refilledTokens rl b now - 1
            else refilledTokens rl b now, now⟩ := by
  unfold Allow refilledTokens
  rw [h]
  by_cases h1 : 1 ≤ goMin (rl.bucketSize : ℚ) (b.tokens + (now - b.lastRefill) * rl.rate)
  · rw [if_pos h1]
    simp only [if_pos h1]
    exact ⟨by simp [h1], by simp⟩
  · rw [if_neg h1]
    simp only [if_neg h1]
    exact ⟨by simp [h1], by simp⟩

/-- A zero-elapsed hit (`lastRefill = now`) on a bucket with `t ≤ capacity`
tokens refills nothing: the decision is `1 ≤ t` and the bucket keeps `t`
(minus one when admitted). -/
theorem Allow_stable (rl : RateLimiter) (ip : String) (now t : ℚ)
    (h : rl.clients ip = some ⟨t, now⟩) (hc : t ≤ (rl.bucketSize : ℚ)) :
    (Allow rl ip now).1 = decide (1 ≤ t) ∧
    ((Allow rl ip now).2).clients ip =
      some ⟨if 1 ≤ t then t - 1 else t, now⟩ := by
  have ht : refilledTokens rl ⟨t, now⟩ now = t := by
    unfold refilledTokens
    simp only [sub_self, zero_mul, add_zero]
    exact goMin_eq_right hc
  have := Allow_hit rl ip now ⟨t, now⟩ h
  rw [ht] at this
  exact this

/-- Zero-elapsed iteration of `Allow` on a bucket already stamped `now`
with `0 ≤ t ≤ capacity` tokens: the first `⌊t⌋` calls are admitted, all
later ones denied. -/
theorem allowRepeat_stable (n : ℕ) :
    ∀ (rl : RateLimiter) (ip : String) (now t : ℚ),
      rl.clients ip = some ⟨t, now⟩ → 0 ≤ t → t ≤ (rl.bucketSize : ℚ) →
      (allowRepeat rl ip now n).1 =
        List.replicate (min n ⌊t⌋₊) true ++ List.replicate (n - ⌊t⌋₊) false := by
  induction n with
  | zero =>
      intro rl ip now t _ _ _
      simp [allowRepeat]
  | succ n ih =>
      intro rl ip now t h h0 hc
      obtain ⟨hdec, hcli⟩ := Allow_stable rl ip now t h hc
      have hbs : ((Allow rl ip now).2).bucketSize = rl.bucketSize :=
        Allow_bucketSize rl ip now
      by_cases h1 : 1 ≤ t
      · have hf1 : 1 ≤ ⌊t⌋₊ := Nat.le_floor (by exact_mod_cast h1)
        have hsub : ⌊t - 1⌋₊ = ⌊t⌋₊ - 1 := by
          rw [show (1 : ℚ) = ((1 : ℕ) : ℚ) by norm_num, Nat.floor_sub_nat]
        have hrest := ih ((Allow rl ip now).2) ip now (t - 1)
          (by rw [hcli, if_pos h1]) (by linarith) (by rw [hbs]; linarith)
        simp only [allowRepeat]
        rw [hdec, decide_eq_true h1, hrest, hsub]
        have hmin : min (n + 1) ⌊t⌋₊ = min n (⌊t⌋₊ - 1) + 1 := by omega
        have hns : (n + 1) - ⌊t⌋₊ = n - (⌊t⌋₊ - 1) := by omega
        rw [hmin, hns, List.replicate_succ, List.cons_append]
      · have hf0 : ⌊t⌋₊ = 0 := Nat.floor_eq_zero.mpr (not_le.mp h1)
        have hrest := ih ((Allow rl ip now).2) ip now t
          (by rw [hcli, if_neg h1]) h0 (by rw [hbs]; exact hc)
        simp only [allowRepeat]
        rw [hdec, decide_eq_false h1, hrest, hf0]
        simp [List.replicate_succ]

theorem goMin_nonneg {a b : ℚ} (ha : 0 ≤ a) (hb : 0 ≤ b) : 0 ≤ goMin a b := by
  unfold goMin; split
  · exact ha
  · exact hb

/-! ## Claim theorems -/

/-- C1: when a bucket already exists for the key, `Allow` first applies
the refill step — `tokens := min(capacity, tokens + elapsed*refillRate)`,
`lastRefill := now` — and only then decides and (on admission) consumes
one token; the refilled token count never exceeds `capacity`, however
large `elapsed` is. -/
theorem refill_clamped_on_hit (rl : RateLimiter) (ip : String) (now : ℚ)
    (b : Bucket) (h : rl.clients ip = some b) :
    (Allow rl ip now).1 = decide (1 ≤ refilledTokens rl b now) ∧
    ((Allow rl ip now).2).clients ip =
      some ⟨if 1 ≤ refilledTokens rl b now then refilledTokens rl b now - 1
            else refilledTokens rl b now, now⟩ ∧
    refilledTokens rl b now ≤ (rl.bucketSize : ℚ) := by
  obtain ⟨h1, h2⟩ := Allow_hit rl ip now b h
  exact ⟨h1, h2, goMin_le_left _ _⟩

/-- Witness for C1: a bucket with 1 token last refilled at time 0,
rate 2, capacity 5, queried at time 100: the refill would add 200 tokens
but is clamped at 5, the call is admitted, and the bucket is left with
4 tokens stamped 100. -/
theorem refill_clamped_on_hit_witness :
    (Allow (⟨2, 5, fun k => if k = "c" then some ⟨1, 0⟩ else none⟩ :
        RateLimiter) "c" 100).1 =
      decide (1 ≤ refilledTokens
        (⟨2, 5, fun k => if k = "c" then some ⟨1, 0⟩ else none⟩ :
          RateLimiter) ⟨1, 0⟩ 100) ∧
    ((Allow (⟨2, 5, fun k => if k = "c" then some ⟨1, 0⟩ else none⟩ :
        RateLimiter) "c" 100).2).clients "c" =
      some ⟨if 1 ≤ refilledTokens
              (⟨2, 5, fun k => if k = "c" then some ⟨1, 0⟩ else none⟩ :
                RateLimiter) ⟨1, 0⟩ 100
            then refilledTokens
              (⟨2, 5, fun k => if k = "c" then some ⟨1, 0⟩ else none⟩ :
                RateLimiter) ⟨1, 0⟩ 100 - 1
            else refilledTokens
              (⟨2, 5, fun k => if k = "c" then some ⟨1, 0⟩ else none⟩ :
                RateLimiter) ⟨1, 0⟩ 100, 100⟩ ∧
    refilledTokens
      (⟨2, 5, fun k => if k = "c" then some ⟨1, 0⟩ else none⟩ :
        RateLimiter) ⟨1, 0⟩ 100 ≤
      (((5 : ℤ) : ℚ)) :=
  refill_clamped_on_hit _ "c" 100 ⟨1, 0⟩ (by simp)

/-- C2: when no bucket exists for the key, `Allow` creates one with
`capacity - 1` tokens stamped `now` and admits the request. -/
theorem new_client_admitted (rl : RateLimiter) (ip : String) (now : ℚ)
    (h : rl.clients ip = none) :
    (Allow rl ip now).1 = true ∧
    ((Allow rl ip now).2).clients ip =
      some ⟨(rl.bucketSize : ℚ) - 1, now⟩ :=
  Allow_miss rl ip now h

/-- Witness for C2: a fresh limiter with capacity 5 admits the first call
of key "1.2.3.4" and leaves its bucket with 4 tokens. -/
theorem new_client_admitted_witness :
    (Allow (⟨1, 5, fun _ => none⟩ : RateLimiter) "1.2.3.4" 0).1 = true ∧
    ((Allow (⟨1, 5, fun _ => none⟩ : RateLimiter) "1.2.3.4" 0).2).clients
        "1.2.3.4" = some ⟨(((5 : ℤ) : ℚ)) - 1, 0⟩ :=
  new_client_admitted _ "1.2.3.4" 0 rfl

/-- C3: for a fresh key and any capacity ≥ 1, `capacity + 1` calls with
zero elapsed time between them are admitted exactly `capacity` times and
the last call is denied. -/
theorem burst_admission (cap : ℕ) (hcap : 1 ≤ cap) (rate : ℚ)
    (ip : String) (now : ℚ) :
    (allowRepeat (⟨rate, (cap : ℤ), fun _ => none⟩ : RateLimiter)
        ip now (cap + 1)).1 =
      List.replicate cap true ++ [false] := by
  have hmiss := Allow_miss (⟨rate, (cap : ℤ), fun _ => none⟩ : RateLimiter)
    ip now rfl
  have hbs := Allow_bucketSize
    (⟨rate, (cap : ℤ), fun _ => none⟩ : RateLimiter) ip now
  have hcast : (((cap : ℤ) : ℚ)) = ((cap : ℕ) : ℚ) := by push_cast; ring
  have hone : (1 : ℚ) ≤ (cap : ℚ) := by exact_mod_cast hcap
  have hrest := allowRepeat_stable cap
    ((Allow (⟨rate, (cap : ℤ), fun _ => none⟩ : RateLimiter) ip now).2)
    ip now ((cap : ℚ) - 1)
    (by rw [hmiss.2, hcast]) (by linarith) (by rw [hbs]; rw [hcast]; linarith)
  have hfloor : ⌊((cap : ℚ) - 1)⌋₊ = cap - 1 := by
    rw [show (1 : ℚ) = ((1 : ℕ) : ℚ) by norm_num, Nat.floor_sub_nat,
      Nat.floor_natCast]
  simp only [allowRepeat]
  rw [hmiss.1, hrest, hfloor]
  have hmin : min cap (cap - 1) = cap - 1 := by omega
  have hsub : cap - (cap - 1) = 1 := by omega
  rw [hmin, hsub]
  have hcs : cap = (cap - 1) + 1 := by omega
  conv_rhs => rw [hcs]
  simp [List.replicate_succ]

/-- Witness for C3: capacity 5 (the spec's example): six zero-elapsed
calls yield five admissions then a denial. -/
theorem burst_admission_witness :
    (allowRepeat (⟨1, ((5 : ℕ) : ℤ), fun _ => none⟩ : RateLimiter)
        "k" 0 (5 + 1)).1 =
      List.replicate 5 true ++ [false] :=
  burst_admission 5 (by norm_num) 1 "k" 0

/-- C4 counterexample: with `rate = 1`, `capacity = 1`, key "k": the
first call (time 0) is admitted and leaves 0 tokens; a call at time 1/2
refills to 1/2 token and is denied, leaving a fractional residue. The
claim then says that advancing the clock by `Δt = 3/5` admits exactly
`⌊Δt * rate⌋ = 0` further requests (`(3/5)*1 < 1`), but the code admits
one: the residue `1/2` plus the refill `3/5` crosses 1. -/
theorem refill_linearity_counterexample :
    ((Allow (Allow (⟨1, 1, fun _ => none⟩ : RateLimiter) "k" 0).2
        "k" (1/2)).1 = false) ∧
    ((3/5 : ℚ) * 1 < 1) ∧
    ((Allow (Allow (Allow (⟨1, 1, fun _ => none⟩ : RateLimiter) "k" 0).2
        "k" (1/2)).2 "k" (1/2 + 3/5)).1 = true) := by
  refine ⟨?_, by norm_num, ?_⟩ <;> norm_num [Allow, goMin]

/-- C4 amended: a denial always leaves the bucket holding its refilled
token count `r` with `0 ≤ r < 1`, stamped with the denial time `t0`.
Advancing the clock by `Δt ≥ 0` and issuing zero-elapsed calls admits
exactly `⌊min(capacity, r + Δt*refillRate)⌋` further requests, each
consuming one token; when the residue `r` is 0 (e.g. after a burst of
zero-elapsed calls exhausts a fresh bucket) this equals the claim's
`min(⌊Δt*refillRate⌋, capacity)`. -/
theorem refill_linearity_amended (rl : RateLimiter) (ip : String)
    (r t0 dt : ℚ) (n : ℕ)
    (h : rl.clients ip = some ⟨r, t0⟩) (hr0 : 0 ≤ r) (hr1 : r < 1)
    (hdt : 0 ≤ dt) (hrate : 0 ≤ rl.rate) (hcap : 1 ≤ rl.bucketSize) :
    (allowRepeat rl ip (t0 + dt) n).1 =
      List.replicate (min n ⌊goMin (rl.bucketSize : ℚ) (r + dt * rl.rate)⌋₊)
        true ++
      List.replicate (n - ⌊goMin (rl.bucketSize : ℚ) (r + dt * rl.rate)⌋₊)
        false := by
  have hcapQ : (1 : ℚ) ≤ (rl.bucketSize : ℚ) := by exact_mod_cast hcap
  have ht' : refilledTokens rl ⟨r, t0⟩ (t0 + dt) =
      goMin (rl.bucketSize : ℚ) (r + dt * rl.rate) := by
    unfold refilledTokens
    congr 1
    ring_nf
  set t' := goMin (rl.bucketSize : ℚ) (r + dt * rl.rate) with ht'def
  have ht'le : t' ≤ (rl.bucketSize : ℚ) := goMin_le_left _ _
  have ht'0 : 0 ≤ t' :=
    goMin_nonneg (by linarith) (by positivity)
  cases n with
  | zero => simp [allowRepeat]
  | succ m =>
      obtain ⟨hdec, hcli⟩ := Allow_hit rl ip (t0 + dt) ⟨r, t0⟩ h
      rw [ht'] at hdec hcli
      have hbs : ((Allow rl ip (t0 + dt)).2).bucketSize = rl.bucketSize :=
        Allow_bucketSize rl ip (t0 + dt)
      by_cases h1 : 1 ≤ t'
      · have hf1 : 1 ≤ ⌊t'⌋₊ := Nat.le_floor (by exact_mod_cast h1)
        have hsub : ⌊t' - 1⌋₊ = ⌊t'⌋₊ - 1 := by
          rw [show (1 : ℚ) = ((1 : ℕ) : ℚ) by norm_num, Nat.floor_sub_nat]
        have hrest := allowRepeat_stable m ((Allow rl ip (t0 + dt)).2) ip
          (t0 + dt) (t' - 1)
          (by rw [hcli, if_pos h1]) (by linarith) (by rw [hbs]; linarith)
        simp only [allowRepeat]
        rw [hdec, decide_eq_true h1, hrest, hsub]
        have hmin : min (m + 1) ⌊t'⌋₊ = min m (⌊t'⌋₊ - 1) + 1 := by omega
        have hns : (m + 1) - ⌊t'⌋₊ = m - (⌊t'⌋₊ - 1) := by omega
        rw [hmin, hns, List.replicate_succ, List.cons_append]
      · have hf0 : ⌊t'⌋₊ = 0 := Nat.floor_eq_zero.mpr (not_le.mp h1)
        have hrest := allowRepeat_stable m ((Allow rl ip (t0 + dt)).2) ip
          (t0 + dt) t'
          (by rw [hcli, if_neg h1]) ht'0 (by rw [hbs]; exact ht'le)
        simp only [allowRepeat]
        rw [hdec, decide_eq_false h1, hrest, hf0]
        simp [List.replicate_succ]

/-- Witness for the amended C4: residue 1/2 at time 0, rate 1,
capacity 5, `Δt = 2`: the refilled count is `min(5, 1/2 + 2) = 5/2`, so
of four further zero-elapsed calls exactly `⌊5/2⌋ = 2` are admitted. -/
theorem refill_linearity_amended_witness :
    (allowRepeat (⟨1, 5, fun k => if k = "k" then some ⟨1/2, 0⟩ else none⟩ :
        RateLimiter) "k" (0 + 2) 4).1 =
      List.replicate (min 4 ⌊goMin (((5 : ℤ) : ℚ)) (1/2 + 2 * 1)⌋₊) true ++
      List.replicate (4 - ⌊goMin (((5 : ℤ) : ℚ)) (1/2 + 2 * 1)⌋₊) false :=
  refill_linearity_amended _ "k" (1/2) 0 2 4 (by simp) (by norm_num)
    (by norm_num) (by norm_num) (by norm_num) (by norm_num)

/-- One `Allow` call preserves the store invariant, for any key, when
the configuration is valid (`capacity ≥ 1`, `rate ≥ 0`) and the clock
does not run backwards. -/
theorem Allow_preserves_inv (rl : RateLimiter) (ip : String) (t t' : ℚ)
    (hcap : 1 ≤ rl.bucketSize) (hrate : 0 ≤ rl.rate) (hmono : t ≤ t')
    (hinv : InvFrom rl t) : InvFrom ((Allow rl ip t').2) t' := by
  have hcapQ : (1 : ℚ) ≤ (rl.bucketSize : ℚ) := by exact_mod_cast hcap
  intro k b hk
  rw [Allow_bucketSize]
  cases hip : rl.clients ip with
  | none =>
      simp only [Allow, hip] at hk
      by_cases hke : k = ip
      · rw [if_pos hke] at hk
        obtain rfl : Bucket.mk ((rl.bucketSize : ℚ) - 1) t' = b :=
          Option.some.inj hk
        refine ⟨?_, ?_, le_refl t'⟩
        · show (0 : ℚ) ≤ (rl.bucketSize : ℚ) - 1
          linarith
        · show (rl.bucketSize : ℚ) - 1 ≤ (rl.bucketSize : ℚ)
          linarith
      · rw [if_neg hke] at hk
        obtain ⟨h1, h2, h3⟩ := hinv k b hk
        exact ⟨h1, h2, le_trans h3 hmono⟩
  | some b0 =>
      obtain ⟨hb0, hb0c, hb0t⟩ := hinv ip b0 hip
      have helapsed : 0 ≤ t' - b0.lastRefill := by linarith
      have hrefill : 0 ≤ (t' - b0.lastRefill) * rl.rate :=
        mul_nonneg helapsed hrate
      have htok0 : 0 ≤ goMin (rl.bucketSize : ℚ)
          (b0.tokens + (t' - b0.lastRefill) * rl.rate) :=
        goMin_nonneg (by linarith) (by linarith)
      have htokc : goMin (rl.bucketSize : ℚ)
          (b0.tokens + (t' - b0.lastRefill) * rl.rate) ≤ (rl.bucketSize : ℚ) :=
        goMin_le_left _ _
      simp only [Allow, hip] at hk
      by_cases h1 : 1 ≤ goMin (rl.bucketSize : ℚ)
          (b0.tokens + (t' - b0.lastRefill) * rl.rate)
      · rw [if_pos h1] at hk
        simp only at hk
        by_cases hke : k = ip
        · rw [if_pos hke] at hk
          obtain rfl := Option.some.inj hk
          refine ⟨?_, ?_, le_refl t'⟩
          · show (0 : ℚ) ≤ goMin (rl.bucketSize : ℚ)
              (b0.tokens + (t' - b0.lastRefill) * rl.rate) - 1
            linarith
          · show goMin (rl.bucketSize : ℚ)
              (b0.tokens + (t' - b0.lastRefill) * rl.rate) - 1 ≤
              (rl.bucketSize : ℚ)
            linarith
        · rw [if_neg hke] at hk
          obtain ⟨g1, g2, g3⟩ := hinv k b hk
          exact ⟨g1, g2, le_trans g3 hmono⟩
      · rw [if_neg h1] at hk
        simp only at hk
        by_cases hke : k = ip
        · rw [if_pos hke] at hk
          obtain rfl := Option.some.inj hk
          exact ⟨htok0, htokc, le_refl t'⟩
        · rw [if_neg hke] at hk
          obtain ⟨g1, g2, g3⟩ := hinv k b hk
          exact ⟨g1, g2, le_trans g3 hmono⟩

/-- C5: along any sequence of `Allow` calls with a non-decreasing clock,
a store satisfying `0 ≤ tokens ≤ capacity` (with timestamps in the past)
still satisfies it after the calls: creation charges one of at least one
token, refill clamps at capacity, and consumption only happens with at
least one token available. Applied to every prefix of a call sequence,
this gives the invariant after each individual `Allow` call. -/
theorem store_tokens_invariant (calls : List (String × ℚ)) :
    ∀ (rl : RateLimiter) (t0 : ℚ), 1 ≤ rl.bucketSize → 0 ≤ rl.rate →
      MonotoneCalls t0 calls → InvFrom rl t0 →
      InvFrom (allowSeq rl calls) (lastTime t0 calls) := by
  induction calls with
  | nil => intro rl t0 _ _ _ hinv; exact hinv
  | cons c rest ih =>
      intro rl t0 hcap hrate hmono hinv
      obtain ⟨hle, hmono'⟩ := hmono
      have hstep := Allow_preserves_inv rl c.1 t0 c.2 hcap hrate hle hinv
      have hbs := Allow_bucketSize rl c.1 c.2
      have hrt := Allow_rate rl c.1 c.2
      simpa [allowSeq, MonotoneCalls, lastTime] using
        ih ((Allow rl c.1 c.2).2) c.2 (by rw [hbs]; exact hcap)
          (by rw [hrt]; exact hrate) hmono' hstep

/-- Witness for C5: a fresh capacity-2 limiter, rate 1, run through four
calls at non-decreasing times 0, 0, 1, 1 on two keys, keeps every bucket
within `[0, capacity]`. -/
theorem store_tokens_invariant_witness :
    InvFrom
      (allowSeq (⟨1, 2, fun _ => none⟩ : RateLimiter)
        [("a", 0), ("a", 0), ("a", 1), ("b", 1)])
      (lastTime 0 [("a", 0), ("a", 0), ("a", 1), ("b", 1)]) :=
  store_tokens_invariant [("a", 0), ("a", 0), ("a", 1), ("b", 1)]
    (⟨1, 2, fun _ => none⟩ : RateLimiter) 0 (by norm_num) (by norm_num)
    (by simp [MonotoneCalls]) (by intro ip b h; simp at h)

/-- C6: a sweep keeps a bucket exactly when its `lastRefill` is at or
after `now - staleThreshold` (strictly earlier buckets are removed), and
an `Allow` call for a swept key behaves as for a brand-new client: it is
admitted and leaves a bucket with `capacity - 1` tokens. -/
theorem sweep_removes_exactly_stale (rl : RateLimiter) (now maxAge : ℚ) :
    (∀ ip b, (cleanupStale rl now maxAge).clients ip = some b ↔
      rl.clients ip = some b ∧ now - maxAge ≤ b.lastRefill) ∧
    (∀ ip b (nxt : ℚ), rl.clients ip = some b →
      b.lastRefill < now - maxAge →
      (Allow (cleanupStale rl now maxAge) ip nxt).1 = true ∧
      ((Allow (cleanupStale rl now maxAge) ip nxt).2).clients ip =
        some ⟨(rl.bucketSize : ℚ) - 1, nxt⟩) := by
  have hmem : ∀ ip b, (cleanupStale rl now maxAge).clients ip = some b ↔
      rl.clients ip = some b ∧ now - maxAge ≤ b.lastRefill := by
    intro ip b
    cases h : rl.clients ip with
    | none => simp [cleanupStale, h]
    | some b0 =>
        by_cases hb : b0.lastRefill < now - maxAge
        · simp only [cleanupStale, h, if_pos hb]
          constructor
          · intro hc; exact absurd hc (by simp)
          · rintro ⟨hb0, hge⟩
            obtain rfl := Option.some.inj hb0
            exact absurd hb (not_lt.mpr hge)
        · simp only [cleanupStale, h, if_neg hb]
          constructor
          · intro hc
            obtain rfl := Option.some.inj hc
            exact ⟨rfl, not_lt.mp hb⟩
          · rintro ⟨hb0, _⟩; exact hb0
  refine ⟨hmem, ?_⟩
  intro ip b nxt hb hstale
  have hgone : (cleanupStale rl now maxAge).clients ip = none := by
    simp only [cleanupStale, hb, if_pos hstale]
  have := Allow_miss (cleanupStale rl now maxAge) ip nxt hgone
  rwa [show (cleanupStale rl now maxAge).bucketSize = rl.bucketSize from rfl]
    at this

/-- Witness for C6: a store holding a stale bucket (stamped 10) and a
fresh one (stamped 90), swept at time 100 with threshold 30: the fresh
bucket's membership is characterised, and the stale key's next call is
admitted as a brand-new client with `capacity - 1 = 4` tokens. -/
theorem sweep_removes_exactly_stale_witness :
    ((cleanupStale
        (⟨1, 5, fun k =>
          if k = "old" then some ⟨3, 10⟩ else
          if k = "new" then some ⟨2, 90⟩ else none⟩ : RateLimiter)
        100 30).clients "new" = some ⟨2, 90⟩ ↔
      ((⟨1, 5, fun k =>
          if k = "old" then some ⟨3, 10⟩ else
          if k = "new" then some ⟨2, 90⟩ else none⟩ :
        RateLimiter).clients "new" = some ⟨2, 90⟩ ∧
        (100 : ℚ) - 30 ≤ (Bucket.mk 2 90).lastRefill)) ∧
    ((Allow (cleanupStale
        (⟨1, 5, fun k =>
          if k = "old" then some ⟨3, 10⟩ else
          if k = "new" then some ⟨2, 90⟩ else none⟩ : RateLimiter)
        100 30) "old" 100).1 = true ∧
      ((Allow (cleanupStale
        (⟨1, 5, fun k =>
          if k = "old" then some ⟨3, 10⟩ else
          if k = "new" then some ⟨2, 90⟩ else none⟩ : RateLimiter)
        100 30) "old" 100).2).clients "old" =
        some ⟨(((5 : ℤ) : ℚ)) - 1, 100⟩) :=
  ⟨(sweep_removes_exactly_stale _ 100 30).1 "new" ⟨2, 90⟩,
   (sweep_removes_exactly_stale _ 100 30).2 "old" ⟨3, 10⟩ 100
     (by simp) (by norm_num)⟩

/-- C7 counterexample: with `X-Forwarded-For = " 1.2.3.4, 5.6.7.8"`, the
claim's derivation (first entry, trimmed) yields `"1.2.3.4"`, but
`getClientIP` does not trim: it returns `" 1.2.3.4"` with its leading
space. -/
theorem client_key_counterexample :
    getClientIP ⟨" 1.2.3.4, 5.6.7.8", "", "10.0.0.1:8080"⟩ ≠
      specClientKey ⟨" 1.2.3.4, 5.6.7.8", "", "10.0.0.1:8080"⟩ ∧
    getClientIP ⟨" 1.2.3.4, 5.6.7.8", "", "10.0.0.1:8080"⟩ = " 1.2.3.4" ∧
    specClientKey ⟨" 1.2.3.4, 5.6.7.8", "", "10.0.0.1:8080"⟩ = "1.2.3.4" := by
  refine ⟨?_, ?_, ?_⟩ <;> decide

/-- C7 amended: the key is the first comma-separated entry of
`X-Forwarded-For` when that header is non-empty, **not** trimmed of
whitespace; otherwise the first comma-separated entry of `X-Real-IP`
when non-empty; otherwise the peer address cut at its **first** colon. -/
theorem client_key_amended (r : Request) :
    getClientIP r =
      if r.xForwardedFor ≠ "" then firstSegment ',' r.xForwardedFor
      else if r.xRealIP ≠ "" then firstSegment ',' r.xRealIP
      else firstSegment ':' r.remoteAddr := by
  by_cases h1 : r.xForwardedFor = "" <;> by_cases h2 : r.xRealIP = "" <;>
    simp [getClientIP, firstNonEmptyHeader, headerGet, h1, h2]

/-- C8: a request whose key is denied is answered with status 429,
content type `application/json` and the fixed JSON error body, and is
not forwarded downstream; a request yielding an empty key is answered
with status 500 and a plain-text body different from the rate-limit
body, and is not forwarded either. -/
theorem middleware_responses (rl : RateLimiter) (r : Request) (now : ℚ) :
    (getClientIP r ≠ "" → (Allow rl (getClientIP r) now).1 = false →
      (RateLimitMiddleware rl r now).1 =
        { status := some 429, contentType := some "application/json",
          body := rateLimitDenialBody, forwarded := false }) ∧
    (getClientIP r = "" →
      (RateLimitMiddleware rl r now).1 =
        { status := some 500,
          contentType := some "text/plain; charset=utf-8",
          body := cannotDetermineBody, forwarded := false }) ∧
    cannotDetermineBody ≠ rateLimitDenialBody := by
  refine ⟨?_, ?_, by decide⟩
  · intro hip hdeny
    unfold RateLimitMiddleware
    simp only [if_neg hip, hdeny]
    rfl
  · intro hip
    unfold RateLimitMiddleware
    simp only [hip]
    rfl

/-- Witness for C8: a denied key "1.2.3.4" (bucket at 0 tokens) receives
the 429 JSON response; a request with no headers and an empty peer
address receives the 500 plain-text response. -/
theorem middleware_responses_witness :
    ((RateLimitMiddleware
        (⟨1, 1, fun k => if k = "1.2.3.4" then some ⟨0, 0⟩ else none⟩ :
          RateLimiter)
        ⟨"1.2.3.4", "", ""⟩ 0).1 =
      { status := some 429, contentType := some "application/json",
        body := rateLimitDenialBody, forwarded := false }) ∧
    ((RateLimitMiddleware
        (⟨1, 1, fun k => if k = "1.2.3.4" then some ⟨0, 0⟩ else none⟩ :
          RateLimiter)
        ⟨"", "", ""⟩ 0).1 =
      { status := some 500, contentType := some "text/plain; charset=utf-8",
        body := cannotDetermineBody, forwarded := false }) :=
  ⟨(middleware_responses _ ⟨"1.2.3.4", "", ""⟩ 0).1 (by decide)
      (by
        have hip : getClientIP ⟨"1.2.3.4", "", ""⟩ = "1.2.3.4" := by decide
        rw [hip]
        norm_num [Allow, goMin]),
   (middleware_responses _ ⟨"", "", ""⟩ 0).2.1 (by decide)⟩

/-- C9 counterexample: `NewRateLimiter(-1, 0, 1)` — a non-positive rate
and a zero capacity — does not fail fast: it returns a limiter carrying
the invalid values unchanged. -/
theorem constructor_counterexample :
    (NewRateLimiter (-1) 0 1).map RateLimiter.rate = some (-1) ∧
    (NewRateLimiter (-1) 0 1).map RateLimiter.bucketSize = some 0 := by
  constructor <;> norm_num [NewRateLimiter]

/-- C9 amended: the constructor validates neither `rate` nor `capacity`:
for every positive sweep interval it returns a limiter storing the given
values unchanged, invalid or not; the only fail-fast path is a
non-positive ticker interval (`time.NewTicker` panics). -/
theorem constructor_no_validation (rate : ℚ) (cap : ℤ) :
    (∀ interval : ℚ, 0 < interval →
      NewRateLimiter rate cap interval =
        some { rate := rate, bucketSize := cap, clients := fun _ => none }) ∧
    (∀ interval : ℚ, interval ≤ 0 →
      NewRateLimiter rate cap interval = none) := by
  constructor
  · intro interval h
    unfold NewRateLimiter
    rw [if_neg (not_le.mpr h)]
  · intro interval h
    unfold NewRateLimiter
    rw [if_pos h]

/-- Witness for the amended C9: rate -1 and capacity 0 are accepted
as-is with interval 1, and interval 0 faults. -/
theorem constructor_no_validation_witness :
    (NewRateLimiter (-1) 0 1 =
      some { rate := -1, bucketSize := 0, clients := fun _ => none }) ∧
    NewRateLimiter (-1) 0 0 = none :=
  ⟨(constructor_no_validation (-1) 0).1 1 (by norm_num),
   (constructor_no_validation (-1) 0).2 0 (by norm_num)⟩

end CreditCardValidator
